import Mathlib

/-!
# Verification of the openai-gemini worker (src/worker.mjs)

Shallow embedding of the response-transformation logic of the gateway
worker.  Pure functions of the source are translated into Lean
definitions; the per-request streaming pipeline is modelled as explicit
state threading over the list of upstream events.  Host JavaScript
builtins (`JSON.stringify`, `String.prototype.startsWith`,
`String.prototype.substring`) are modelled by faithful Lean counterparts
on a small JSON value type and on `String`/`List Char`.

Functions of the repository that are referenced by `worker.mjs` but whose
bodies are not part of the source snapshot (`parseStream`,
`parseStreamFlush`, `toOpenAiStream`, `toOpenAiStreamFlush`,
`generateChatcmplId`, `transformUsage`) are modelled from the
specification; each such definition carries a doc comment saying so.
-/

/-- A JavaScript/JSON value, as far as the worker manipulates one:
null, booleans, numbers, strings, arrays and objects. -/
inductive Json where
  | null : Json
  | bool (b : Bool) : Json
  | num (n : Int) : Json
  | str (s : String) : Json
  | arr (xs : List Json) : Json
  | obj (fields : List (String × Json)) : Json

/-- Escaping of one character inside a JSON string literal, as
`JSON.stringify` performs it for the characters that occur in our data. -/
def escapeJsonChar (c : Char) : String :=
  if c = '\"' then "\\\""
  else if c = '\\' then "\\\\"
  else if c = '\n' then "\\n"
  else if c = '\r' then "\\r"
  else if c = '\t' then "\\t"
  else String.singleton c

/-- Escaping of a whole string, as inside a `JSON.stringify` output. -/
def escapeJson (s : String) : String :=
  s.data.foldr (fun c acc => escapeJsonChar c ++ acc) ""

mutual
/-- Model of the host `JSON.stringify` (compact form, as used at
`content: JSON.stringify(req)` in `processCompletionsResponse`). -/
def Json.stringify : Json → String
  | .null => "null"
  | .bool true => "true"
  | .bool false => "false"
  | .num n => toString n
  | .str s => "\"" ++ escapeJson s ++ "\""
  | .arr xs => "[" ++ Json.stringifyArr xs ++ "]"
  | .obj fs => "\x7b" ++ Json.stringifyObj fs ++ "\x7d"

/-- Comma-separated serialization of the elements of a JSON array. -/
def Json.stringifyArr : List Json → String
  | [] => ""
  | [x] => x.stringify
  | x :: y :: xs => x.stringify ++ "," ++ Json.stringifyArr (y :: xs)

/-- Comma-separated serialization of the fields of a JSON object. -/
def Json.stringifyObj : List (String × Json) → String
  | [] => ""
  | [f] => "\"" ++ escapeJson f.1 ++ "\":" ++ f.2.stringify
  | f :: g :: fs =>
      "\"" ++ escapeJson f.1 ++ "\":" ++ f.2.stringify ++ "," ++
        Json.stringifyObj (g :: fs)
end

/-- Model of the JavaScript `String.prototype.startsWith`: `p` is a
prefix of `s`. -/
def strStartsWith (s p : String) : Bool :=
  p.data.isPrefixOf s.data

/-- Model of `s.substring n`: drop the first `n` characters. -/
def strSubstringFrom (s : String) (n : Nat) : String :=
  ⟨s.data.drop n⟩

/-! ## Upstream (Gemini) response data model -/

/-- Usage metadata of an upstream response
(`usageMetadata`: prompt/candidates/total token counts). -/
structure UsageMetadata where
  promptTokenCount : Nat
  candidatesTokenCount : Nat
  totalTokenCount : Nat
  deriving DecidableEq, Repr

/-- One upstream candidate.  The worker reads `index` (optional in the
wire format) and `finishReason`; `content` is the generated text of the
candidate carried by the upstream body or event. -/
structure Candidate where
  index : Option Nat
  content : String
  finishReason : Option String
  deriving DecidableEq, Repr

/-- A complete upstream generation response body (non-streaming), or one
upstream streaming event payload: candidates plus optional usage. -/
structure GenerateContentResponse where
  candidates : List Candidate
  usageMetadata : Option UsageMetadata
  deriving DecidableEq, Repr

/-! ## Target (OpenAI-style) response data model -/

/-- The `usage` object of a target response. -/
structure UsageOut where
  completion_tokens : Nat
  prompt_tokens : Nat
  total_tokens : Nat
  deriving DecidableEq, Repr

/-- Modelled from the spec: `transformUsage` is referenced by
`processCompletionsResponse` but its body is not in the source snapshot;
§4.4 specifies a 1:1 mapping of usage metadata into the target usage
shape (prompt/completion/total token counts). -/
def transformUsage : Option UsageMetadata → Option UsageOut
  | none => none
  | some u => some ⟨u.candidatesTokenCount, u.promptTokenCount, u.totalTokenCount⟩

/-- One `choices` entry of the non-streaming target body, as built by
`processCompletionsResponse`. -/
structure NSChoice where
  index : Nat
  message_role : String
  message_content : String
  logprobs : Option Nat
  finish_reason : Option String
  deriving DecidableEq, Repr

/-- The non-streaming target chat-completion body (the `responseJson`
object of `processCompletionsResponse`, before serialization). -/
structure NSResponse where
  id : String
  choices : List NSChoice
  created : Nat
  model : String
  object : String
  usage : Option UsageOut
  deriving DecidableEq, Repr

/-- Embedding of `processCompletionsResponse(data, model, id, req)`
(worker.mjs lines 224–242).  `now` stands for
`Math.floor(Date.now() / 1000)`.  Note the source sets each choice's
`index` to `cand.index || 0`, its message content to
`JSON.stringify(req)` and its `finish_reason` to the raw upstream
`cand.finishReason`. -/
def processCompletionsResponse (data : GenerateContentResponse)
    (model id : String) (req : Json) (now : Nat) : NSResponse :=
  { id := id
    choices := data.candidates.map (fun cand =>
      { index := cand.index.getD 0
        message_role := "assistant"
        message_content := req.stringify
        logprobs := none
        finish_reason := cand.finishReason })
    created := now
    model := model
    object := "chat.completion"
    usage := transformUsage data.usageMetadata }

/-! ## Model-name resolution of `handleCompletions` -/

/-- `DEFAULT_MODEL` of worker.mjs line 154. -/
def DEFAULT_MODEL : String := "gemini-1.5-pro-latest"

/-- Embedding of the `switch (true)` model resolution of
`handleCompletions` (worker.mjs lines 156–166).  `none` stands for
`req.model` not being a string. -/
def resolveCompletionsModel (m : Option String) : String :=
  match m with
  | none => DEFAULT_MODEL
  | some s =>
    if strStartsWith s "models/" then strSubstringFrom s 7
    else if strStartsWith s "gemini-" then s
    else if strStartsWith s "learnlm-" then s
    else DEFAULT_MODEL

/-! ## The embeddings handler -/

/-- An `HttpError` of worker.mjs (message and HTTP status). -/
structure HttpError where
  message : String
  status : Nat
  deriving DecidableEq, Repr

/-- `DEFAULT_EMBEDDINGS_MODEL` of worker.mjs line 105. -/
def DEFAULT_EMBEDDINGS_MODEL : String := "text-embedding-004"

/-- The request-shaping outcome of `handleEmbeddings`: the upstream model
path used in the outbound call and request bodies, the model name echoed
in the response (`req.model` after mutation), and the normalized input
list. -/
structure EmbPlan where
  upstreamModel : String
  echoedModel : String
  inputs : List Json

/-- Embedding of the request-shaping part of `handleEmbeddings`
(worker.mjs lines 106–131): the model-string check, the
`Array.isArray` input normalization and the model-name substitution. -/
def handleEmbeddingsPlan (reqModel : Json) (reqInput : Json) :
    Except HttpError EmbPlan :=
  match reqModel with
  | .str s =>
    let inputs : List Json :=
      match reqInput with
      | .arr xs => xs
      | j => [j]
    if strStartsWith s "models/" then
      .ok ⟨s, s, inputs⟩
    else
      .ok ⟨"models/" ++ DEFAULT_EMBEDDINGS_MODEL, DEFAULT_EMBEDDINGS_MODEL, inputs⟩
  | _ => .error ⟨"model is not specified", 400⟩

/-! ## The streaming pipeline

The bodies of `parseStream`, `parseStreamFlush`, `toOpenAiStream` and
`toOpenAiStreamFlush` are referenced by `handleCompletions` (worker.mjs
lines 182–201) but are not part of the source snapshot; the definitions
below model them from the specification (§4.1–§4.3). -/

/-- Modelled from the spec: the finish-reason table of §4.2 — natural
stop ↦ `stop`, max-length stop ↦ `length`, safety and recitation blocks
↦ `content_filter`; an unknown upstream reason passes through unchanged
(generic fallback, never a failure). -/
def mapFinishReason (r : String) : String :=
  if r = "STOP" then "stop"
  else if r = "MAX_TOKENS" then "length"
  else if r = "SAFETY" then "content_filter"
  else if r = "RECITATION" then "content_filter"
  else r

/-- Modelled from the spec: the fallback finish reason the Stream
Finalizer uses for a candidate the upstream never finished (§4.3,
"treat as abnormal stop"). -/
def fallbackFinishReason : String := "stop"

/-- Modelled from the spec: `generateChatcmplId` (referenced at
worker.mjs line 180, body not in the snapshot) produces a
process-unique, opaque, non-empty chat-completion id; modelled as a
function of a seed. -/
def generateChatcmplId (seed : Nat) : String :=
  "chatcmpl-" ++ toString seed

/-- One entry of the `choices` array of a streaming chunk frame. -/
structure Delta where
  index : Nat
  role : Option String
  content : String
  finish_reason : Option String
  deriving DecidableEq, Repr

/-- The payload of one streaming chunk frame (the target
`chat.completion.chunk` object). -/
structure ChunkFrame where
  id : String
  model : String
  created : Nat
  choices : List Delta
  usage : Option UsageOut
  deriving DecidableEq, Repr

/-- One outgoing SSE frame: either a chunk carrying deltas/usage, or the
terminal `data: [DONE]` sentinel. -/
inductive OutFrame where
  | chunk (c : ChunkFrame) : OutFrame
  | done : OutFrame
  deriving DecidableEq, Repr

/-- The per-request state of the streaming transform (the mutable fields
of the `TransformStream` configuration at worker.mjs lines 192–199, plus
the bookkeeping §3 requires: observed candidate indices, per-candidate
finish reasons, accumulated usage, the lazily emitted id). -/
structure StreamState where
  id : String
  model : String
  streamIncludeUsage : Bool
  now : Nat
  emittedId : Option String
  observed : List Nat
  finished : List (Nat × String)
  usageMetadata : Option UsageMetadata
  deriving DecidableEq, Repr

/-- The recorded finish reason of candidate `idx`, if any (first
matching entry of the association list). -/
def finishLookup : List (Nat × String) → Nat → Option String
  | [], _ => none
  | p :: fs, idx => if p.1 = idx then some p.2 else finishLookup fs idx

/-- The initial stream state, as configured by `handleCompletions`
(worker.mjs lines 192–199): the generated id, the resolved model and
`req.stream_options?.include_usage`. -/
def initStreamState (id model : String) (includeUsage : Bool) (now : Nat) :
    StreamState :=
  { id := id, model := model, streamIncludeUsage := includeUsage, now := now
    emittedId := none, observed := [], finished := [], usageMetadata := none }

/-- Modelled from the spec (§4.2): process one candidate of one upstream
event.  A candidate whose index already has a recorded finish reason is
ignored (reopened candidate — state not regressed, nothing emitted);
otherwise one delta is emitted, carrying the role only on the first
delta ever for that index and the mapped finish reason when the upstream
supplies one, which is then recorded. -/
def stepCandidate (st : StreamState) (c : Candidate) :
    List Delta × StreamState :=
  let idx := c.index.getD 0
  if (finishLookup st.finished idx).isSome then
    ([], st)
  else
    let d : Delta :=
      { index := idx
        role := if idx ∈ st.observed then none else some "assistant"
        content := c.content
        finish_reason := c.finishReason.map mapFinishReason }
    let st' : StreamState := { st with
      observed := if idx ∈ st.observed then st.observed
                  else st.observed ++ [idx]
      finished := match c.finishReason with
        | none => st.finished
        | some r => st.finished ++ [(idx, mapFinishReason r)] }
    ([d], st')

/-- Process all candidates of one event in order, threading the state. -/
def stepCandidates : StreamState → List Candidate → List Delta × StreamState
  | st, [] => ([], st)
  | st, c :: cs =>
    let (ds, st') := stepCandidate st c
    let (rest, st'') := stepCandidates st' cs
    (ds ++ rest, st'')

/-- Modelled from the spec (§4.2): the Event Transformer.  On the first
event the chat-completion id is assigned (from the configured id);
each event's candidates become deltas of one chunk frame; usage metadata
carried by the event overwrites the accumulated usage. -/
def toOpenAiStream (st : StreamState) (e : GenerateContentResponse) :
    List OutFrame × StreamState :=
  let st0 : StreamState := { st with emittedId := some (st.emittedId.getD st.id) }
  let (ds, st1) := stepCandidates st0 e.candidates
  let st2 : StreamState :=
    match e.usageMetadata with
    | none => st1
    | some u => { st1 with usageMetadata := some u }
  if ds.isEmpty then ([], st2)
  else
    ([.chunk { id := st2.emittedId.getD st2.id, model := st2.model,
               created := st2.now, choices := ds, usage := none }], st2)

/-- Modelled from the spec (§4.3): the Stream Finalizer.  Every observed
candidate without a recorded finish reason gets one synthetic closing
frame (empty content, fallback finish reason); if usage accounting was
requested and usage is present, one usage-only frame follows; the
terminal sentinel comes last. -/
def toOpenAiStreamFlush (st : StreamState) : List OutFrame :=
  let theId := st.emittedId.getD st.id
  let pending := st.observed.filter (fun i => (finishLookup st.finished i).isNone)
  let closeFrames := pending.map (fun i =>
    OutFrame.chunk { id := theId, model := st.model, created := st.now,
                     choices := [⟨i, none, "", some fallbackFinishReason⟩],
                     usage := none })
  let usageFrames :=
    match st.streamIncludeUsage, transformUsage st.usageMetadata with
    | true, some u =>
      [OutFrame.chunk { id := theId, model := st.model, created := st.now,
                        choices := [], usage := some u }]
    | _, _ => []
  closeFrames ++ usageFrames ++ [.done]

/-- Fold the Event Transformer over a list of upstream events. -/
def runStreamEvents : StreamState → List GenerateContentResponse →
    List OutFrame × StreamState
  | st, [] => ([], st)
  | st, e :: es =>
    let (fs, st') := toOpenAiStream st e
    let (rest, st'') := runStreamEvents st' es
    (fs ++ rest, st'')

/-- The whole streaming pipeline after frame reassembly: transform every
upstream event, then run the finalizer.  The upstream event list may end
anywhere (truncation included); the finalizer always runs. -/
def runOpenAiStream (st : StreamState) (events : List GenerateContentResponse) :
    List OutFrame :=
  let (fs, st') := runStreamEvents st events
  fs ++ toOpenAiStreamFlush st'

/-- Whether a finish reason has been recorded for candidate `idx`. -/
def hasFinish (st : StreamState) (idx : Nat) : Bool :=
  (finishLookup st.finished idx).isSome

/-- The number of deltas of the list carrying a finish reason for
candidate `idx`. -/
def deltasFinishCount (ds : List Delta) (idx : Nat) : Nat :=
  (ds.filter (fun d => d.index == idx && d.finish_reason.isSome)).length

/-- The number of deltas carrying a finish reason for candidate `idx`
across a list of frames. -/
def finishDeltaCount (frames : List OutFrame) (idx : Nat) : Nat :=
  (frames.map (fun f =>
    match f with
    | .chunk c =>
      (c.choices.filter (fun d => d.index == idx && d.finish_reason.isSome)).length
    | .done => 0)).sum

/-- The concatenated delta contents for candidate `idx` across a list of
frames, in emission order. -/
def accumContent (frames : List OutFrame) (idx : Nat) : String :=
  String.join (frames.map (fun f =>
    match f with
    | .chunk c =>
      String.join (((c.choices.filter (fun d => d.index == idx)).map (·.content)))
    | .done => ""))

/-- Candidate index `idx` appears in some event of the list (after the
source's `cand.index || 0` defaulting). -/
def observedIn (events : List GenerateContentResponse) (idx : Nat) : Prop :=
  ∃ e ∈ events, ∃ c ∈ e.candidates, c.index.getD 0 = idx

/-! ## The Frame Reassembler

Modelled from the spec (§4.1): `parseStream` keeps a string buffer,
appends each incoming text fragment, extracts the complete
(newline-terminated) lines, yields the payload of every `data: ` line,
and retains the trailing unterminated residue.  Text is modelled as
`List Char`. -/

/-- Split a character sequence into its complete (newline-terminated)
lines and the trailing unterminated residue.  The terminators are not
part of the returned lines. -/
def extractLines : List Char → List (List Char) × List Char
  | [] => ([], [])
  | c :: rest =>
    let p := extractLines rest
    if c = '\n' then ([] :: p.1, p.2)
    else
      match p.1 with
      | [] => ([], c :: p.2)
      | l :: ls => ((c :: l) :: ls, p.2)

/-- The payload of an SSE data line: the remainder after the
`data: ` marker, or `none` for any other line (blank, comment,
unrecognized prefix — discarded). -/
def dataLinePayload (line : List Char) : Option (List Char) :=
  if ("data: ".data).isPrefixOf line then some (line.drop 6) else none

/-- Modelled from the spec (§4.1): one `parseStream` transform step —
append the fragment to the buffer, yield the payloads of the complete
`data: ` lines, keep the unterminated residue as the new buffer. -/
def parseStream (buffer chunk : List Char) : List (List Char) × List Char :=
  let p := extractLines (buffer ++ chunk)
  (p.1.filterMap dataLinePayload, p.2)

/-- Feed a list of fragments through the line framing, threading the
buffer; returns all complete lines in order and the final buffer. -/
def feedLines : List Char → List (List Char) → List (List Char) × List Char
  | buf, [] => ([], buf)
  | buf, ch :: chs =>
    let p := extractLines (buf ++ ch)
    let q := feedLines p.2 chs
    (p.1 ++ q.1, q.2)

/-- The Frame Reassembler applied to a whole fragment list, starting
from an empty buffer: the ordered `data: ` payloads of all complete
lines, plus the final residue handed to `parseStreamFlush`. -/
def reassemble (chunks : List (List Char)) : List (List Char) × List Char :=
  let q := feedLines [] chunks
  (q.1.filterMap dataLinePayload, q.2)

theorem extractLines_append (s t : List Char) :
    extractLines (s ++ t) =
      ((extractLines s).1 ++ (extractLines ((extractLines s).2 ++ t)).1,
       (extractLines ((extractLines s).2 ++ t)).2) := by
  induction s with
  | nil => simp [extractLines]
  | cons c s ih =>
    by_cases hc : c = '\n'
    · simp [extractLines, hc, ih]
    · simp only [List.cons_append, extractLines, if_neg hc, List.append_eq]
      cases h1 : (extractLines s).1 with
      | nil =>
        rw [ih, h1]
        simp only [List.nil_append, extractLines, if_neg hc]
        cases h2 : (extractLines ((extractLines s).2 ++ t)).1 <;> simp
      | cons l ls =>
        rw [ih, h1]
        simp [extractLines, if_neg hc]

theorem extractLines_snd_no_newline (s : List Char) :
    ∀ c ∈ (extractLines s).2, c ≠ '\n' := by
  induction s with
  | nil => simp [extractLines]
  | cons c s ih =>
    by_cases hc : c = '\n'
    · simpa [extractLines, hc] using ih
    · simp only [extractLines, if_neg hc]
      cases h1 : (extractLines s).1 with
      | nil =>
        intro x hx
        rcases List.mem_cons.mp hx with h | h
        · subst h; exact hc
        · exact ih x h
      | cons l ls => simpa using ih

theorem extractLines_of_no_newline (s : List Char)
    (h : ∀ c ∈ s, c ≠ '\n') : extractLines s = ([], s) := by
  induction s with
  | nil => simp [extractLines]
  | cons c s ih =>
    have hc : c ≠ '\n' := h c (List.mem_cons_self c s)
    have hs : ∀ x ∈ s, x ≠ '\n' := fun x hx => h x (List.mem_cons_of_mem c hx)
    simp [extractLines, if_neg hc, ih hs]

theorem feedLines_join (chunks : List (List Char)) :
    ∀ buf, (∀ c ∈ buf, c ≠ '\n') →
      feedLines buf chunks = extractLines (buf ++ chunks.flatten) := by
  induction chunks with
  | nil =>
    intro buf h
    simp [feedLines, extractLines_of_no_newline buf h]
  | cons ch chs ih =>
    intro buf h
    have hsnd := extractLines_snd_no_newline (buf ++ ch)
    simp only [feedLines, List.flatten_cons]
    rw [ih _ hsnd, ← List.append_assoc, extractLines_append (buf ++ ch) chs.flatten]

/-! ## Claims about the non-streaming transformer and the handlers -/

/-- C1: the spec claims every choice of the non-streaming transform
carries the candidate's generated content as its message content and the
array position as its index.  The code instead sets every choice's
content to the serialized inbound request (`JSON.stringify(req)`,
worker.mjs line 231) and the index to `cand.index || 0`.  Evaluated at a
two-candidate body with contents `"A"` and `"B"`: both choices carry
index 0 and the serialized request, not the candidate contents. -/
theorem processCompletionsResponse_echoes_request :
    ((processCompletionsResponse
        ⟨[⟨none, "A", some "STOP"⟩, ⟨none, "B", some "STOP"⟩], none⟩
        "gemini-1.5-pro-latest" "chatcmpl-1" (.obj [("model", .str "m")])
        100).choices.map (fun ch => (ch.index, ch.message_role, ch.message_content)))
      = [(0, "assistant", "\x7b\"model\":\"m\"\x7d"),
         (0, "assistant", "\x7b\"model\":\"m\"\x7d")]
    ∧ "\x7b\"model\":\"m\"\x7d" ≠ "A" ∧ "\x7b\"model\":\"m\"\x7d" ≠ "B" := by
  decide

/-- C2 counterexample: the non-streaming transformer does not translate
the upstream finish reason through the table — on a candidate finished
with the natural-stop reason `"STOP"`, the produced choice carries
`"STOP"` itself, not `"stop"`. -/
theorem processCompletionsResponse_finish_reason_raw :
    ((processCompletionsResponse ⟨[⟨some 0, "Hi", some "STOP"⟩], none⟩
        "gemini-1.5-pro-latest" "chatcmpl-2" (.obj []) 0).choices.map
          (·.finish_reason)) = [some "STOP"]
    ∧ (some "STOP" : Option String) ≠ some "stop" := by
  decide

/-- C2 (amended): the streaming Event Transformer translates finish
reasons through the fixed table (natural stop ↦ `stop`, max-length stop
↦ `length`, safety and recitation blocks ↦ `content_filter`, any other
value passes through unchanged rather than failing), while the
Non-Streaming Response Transformer applies no table at all: it copies
the raw upstream finish reason of every candidate into the
corresponding choice. -/
theorem finish_reason_mapping_table :
    (mapFinishReason "STOP" = "stop"
      ∧ mapFinishReason "MAX_TOKENS" = "length"
      ∧ mapFinishReason "SAFETY" = "content_filter"
      ∧ mapFinishReason "RECITATION" = "content_filter")
    ∧ (∀ r, r ≠ "STOP" → r ≠ "MAX_TOKENS" → r ≠ "SAFETY" → r ≠ "RECITATION" →
        mapFinishReason r = r)
    ∧ (∀ st c r, c.finishReason = some r →
        (finishLookup st.finished (c.index.getD 0)).isSome = false →
        (stepCandidate st c).1.map (·.finish_reason) = [some (mapFinishReason r)])
    ∧ (∀ data model id req now,
        (processCompletionsResponse data model id req now).choices.map
          (·.finish_reason) = data.candidates.map (·.finishReason)) := by
  refine ⟨⟨rfl, rfl, rfl, rfl⟩, ?_, ?_, ?_⟩
  · intro r h1 h2 h3 h4
    simp [mapFinishReason, h1, h2, h3, h4]
  · intro st c r hr hf
    simp [stepCandidate, hf, hr]
  · intro data model id req now
    simp [processCompletionsResponse]

/-- Witness for the amended C2: the fallback at the unknown reason
`"OTHER"`, the streaming delta of a `SAFETY`-finished candidate in the
initial state, and the raw passthrough of the non-streaming path at a
concrete body. -/
theorem finish_reason_mapping_table_witness :
    mapFinishReason "OTHER" = "OTHER"
    ∧ (stepCandidate (initStreamState "chatcmpl-3" "gemini-1.5-pro-latest" false 0)
        ⟨some 0, "x", some "SAFETY"⟩).1.map (·.finish_reason)
        = [some (mapFinishReason "SAFETY")]
    ∧ ((processCompletionsResponse ⟨[⟨some 1, "y", some "RECITATION"⟩], none⟩
          "gemini-1.5-pro-latest" "chatcmpl-4" (.obj []) 7).choices.map
            (·.finish_reason))
        = ([⟨some 1, "y", some "RECITATION"⟩] : List Candidate).map (·.finishReason) := by
  have h := finish_reason_mapping_table
  exact ⟨h.2.1 "OTHER" (by decide) (by decide) (by decide) (by decide),
         h.2.2.1 _ _ "SAFETY" rfl (by decide),
         h.2.2.2 ⟨[⟨some 1, "y", some "RECITATION"⟩], none⟩
           "gemini-1.5-pro-latest" "chatcmpl-4" (.obj []) 7⟩

/-- C4 counterexample: two invocations of the non-streaming transformer
on the same upstream body, request and model — but at different times
and with the two distinct per-call generated ids — produce different
target bodies (the `id` and `created` fields differ). -/
theorem processCompletionsResponse_not_idempotent_across_calls :
    processCompletionsResponse ⟨[⟨some 0, "Hi", some "STOP"⟩], none⟩
        "gemini-1.5-pro-latest" "chatcmpl-a" (.obj []) 10
      ≠ processCompletionsResponse ⟨[⟨some 0, "Hi", some "STOP"⟩], none⟩
        "gemini-1.5-pro-latest" "chatcmpl-b" (.obj []) 11 := by
  decide

/-- C4 (amended): the non-streaming path keeps no cross-call state —
the output is a pure function of the upstream body, the model, the
assigned id, the inbound request and the clock reading.  Two invocations
on the same body, request and model agree on every field except `id`
and `created` (which come from the per-call generated id and the
clock); with the same id and timestamp the bodies are identical. -/
theorem processCompletionsResponse_deterministic :
    ∀ (data : GenerateContentResponse) (model id id' : String) (req : Json)
      (now now' : Nat),
      ((processCompletionsResponse data model id req now).choices
          = (processCompletionsResponse data model id' req now').choices
        ∧ (processCompletionsResponse data model id req now).usage
          = (processCompletionsResponse data model id' req now').usage
        ∧ (processCompletionsResponse data model id req now).model
          = (processCompletionsResponse data model id' req now').model
        ∧ (processCompletionsResponse data model id req now).object
          = (processCompletionsResponse data model id' req now').object)
      ∧ processCompletionsResponse data model id req now
          = processCompletionsResponse data model id req now := by
  intro data model id id' req now now'
  exact ⟨⟨rfl, rfl, rfl, rfl⟩, rfl⟩

/-- C9: model resolution of `handleCompletions` — a non-string model or
one starting with none of `models/`, `gemini-`, `learnlm-` resolves to
the default `gemini-1.5-pro-latest`; a `models/` prefix is stripped
(7 characters); a `gemini-` or `learnlm-` name is used unchanged. -/
theorem resolveCompletionsModel_correct :
    resolveCompletionsModel none = "gemini-1.5-pro-latest"
    ∧ (∀ s, strStartsWith s "models/" = false → strStartsWith s "gemini-" = false →
        strStartsWith s "learnlm-" = false →
        resolveCompletionsModel (some s) = "gemini-1.5-pro-latest")
    ∧ (∀ t, resolveCompletionsModel (some ("models/" ++ t)) = t)
    ∧ (∀ t, resolveCompletionsModel (some ("gemini-" ++ t)) = "gemini-" ++ t)
    ∧ (∀ t, resolveCompletionsModel (some ("learnlm-" ++ t)) = "learnlm-" ++ t) := by
  refine ⟨rfl, ?_, ?_, ?_, ?_⟩
  · intro s h1 h2 h3
    simp [resolveCompletionsModel, h1, h2, h3, DEFAULT_MODEL]
  · intro t
    have hpre : strStartsWith ("models/" ++ t) "models/" = true := by
      unfold strStartsWith
      rw [String.data_append]
      exact List.isPrefixOf_iff_prefix.mpr (List.prefix_append _ _)
    have hsub : strSubstringFrom ("models/" ++ t) 7 = t := by
      unfold strSubstringFrom
      rw [String.data_append]
      have h7 : ("models/".data).length = 7 := by decide
      rw [← h7, List.drop_left]
    simp [resolveCompletionsModel, hpre, hsub]
  · intro t
    have hm : strStartsWith ("gemini-" ++ t) "models/" = false := by rfl
    have hpre : strStartsWith ("gemini-" ++ t) "gemini-" = true := by
      unfold strStartsWith
      rw [String.data_append]
      exact List.isPrefixOf_iff_prefix.mpr (List.prefix_append _ _)
    simp [resolveCompletionsModel, hm, hpre]
  · intro t
    have hm : strStartsWith ("learnlm-" ++ t) "models/" = false := by rfl
    have hg : strStartsWith ("learnlm-" ++ t) "gemini-" = false := by rfl
    have hpre : strStartsWith ("learnlm-" ++ t) "learnlm-" = true := by
      unfold strStartsWith
      rw [String.data_append]
      exact List.isPrefixOf_iff_prefix.mpr (List.prefix_append _ _)
    simp [resolveCompletionsModel, hm, hg, hpre]

/-- Witness for C9: the default at a foreign model name, the stripped
`models/` prefix, and the unchanged `gemini-`/`learnlm-` names. -/
theorem resolveCompletionsModel_correct_witness :
    resolveCompletionsModel (some "gpt-4o") = "gemini-1.5-pro-latest"
    ∧ resolveCompletionsModel (some ("models/" ++ "gemini-1.5-flash")) = "gemini-1.5-flash"
    ∧ resolveCompletionsModel (some ("gemini-" ++ "2.0")) = "gemini-" ++ "2.0"
    ∧ resolveCompletionsModel (some ("learnlm-" ++ "1.5")) = "learnlm-" ++ "1.5" := by
  have h := resolveCompletionsModel_correct
  exact ⟨h.2.1 "gpt-4o" (by decide) (by decide) (by decide),
         h.2.2.1 "gemini-1.5-flash", h.2.2.2.1 "2.0", h.2.2.2.2 "1.5"⟩

/-- C10: the embeddings handler rejects a non-string model with the 400
`model is not specified` error; a string model without the `models/`
prefix is silently replaced by `text-embedding-004` both in the upstream
model path and in the echoed model field; a non-array input is wrapped
into a single-element list, an array input is used as is. -/
theorem handleEmbeddingsPlan_correct :
    (∀ (input j : Json), (∀ s, j ≠ .str s) →
        handleEmbeddingsPlan j input = .error ⟨"model is not specified", 400⟩)
    ∧ (∀ s input, strStartsWith s "models/" = false →
        ∃ ins, handleEmbeddingsPlan (.str s) input
          = .ok ⟨"models/text-embedding-004", "text-embedding-004", ins⟩)
    ∧ (∀ s input, (∀ xs, input ≠ .arr xs) →
        (handleEmbeddingsPlan (.str s) input).map (·.inputs) = .ok [input])
    ∧ (∀ s xs,
        (handleEmbeddingsPlan (.str s) (.arr xs)).map (·.inputs) = .ok xs) := by
  refine ⟨?_, ?_, ?_, ?_⟩
  · intro input j h
    cases j with
    | str s => exact absurd rfl (h s)
    | null => rfl
    | bool b => rfl
    | num n => rfl
    | arr xs => rfl
    | obj fs => rfl
  · intro s input h
    refine ⟨match input with | .arr xs => xs | j => [j], ?_⟩
    simp only [handleEmbeddingsPlan, h, Bool.false_eq_true, if_false,
      DEFAULT_EMBEDDINGS_MODEL]
    rfl
  · intro s input harr
    have hin : (match input with | Json.arr xs => xs | j => [j]) = [input] := by
      cases input with
      | arr xs => exact absurd rfl (harr xs)
      | null => rfl
      | bool b => rfl
      | num n => rfl
      | str t => rfl
      | obj fs => rfl
    by_cases hm : strStartsWith s "models/" = true <;>
      simp [handleEmbeddingsPlan, hm, hin, Except.map]
  · intro s xs
    by_cases hm : strStartsWith s "models/" = true <;>
      simp [handleEmbeddingsPlan, hm, Except.map]

/-- Witness for C10: the 400 error on a numeric model, the silent
substitution at model `"gpt"`, and the wrapping of a single string
input. -/
theorem handleEmbeddingsPlan_correct_witness :
    handleEmbeddingsPlan (.num 3) (.str "hello")
      = .error ⟨"model is not specified", 400⟩
    ∧ (∃ ins, handleEmbeddingsPlan (.str "gpt") (.str "hello")
        = .ok ⟨"models/text-embedding-004", "text-embedding-004", ins⟩)
    ∧ (handleEmbeddingsPlan (.str "gpt") (.str "hello")).map (·.inputs)
        = .ok [.str "hello"] := by
  have h := handleEmbeddingsPlan_correct
  exact ⟨h.1 (.str "hello") (.num 3) (fun s hs => Json.noConfusion hs),
         h.2.1 "gpt" (.str "hello") (by rfl),
         h.2.2.1 "gpt" (.str "hello") (fun xs hxs => Json.noConfusion hxs)⟩

/-! ## Claims about the Frame Reassembler -/

/-- C8: split-invariance of the Frame Reassembler — any two ways of
splitting the same SSE byte stream into text fragments yield the same
ordered sequence of `data: ` payloads (hence, `JSON.parse` being a
function of the payload text, the same ordered sequence of UpstreamEvent
objects) and the same final residue. -/
theorem reassemble_split_invariant :
    ∀ (chunks chunks' : List (List Char)),
      chunks.flatten = chunks'.flatten →
      reassemble chunks = reassemble chunks' := by
  intro c1 c2 h
  unfold reassemble
  rw [feedLines_join c1 [] (by simp), feedLines_join c2 [] (by simp), h]

/-- Witness for C8: a two-line stream delivered in three odd-offset
fragments parses exactly as the same stream delivered whole. -/
theorem reassemble_split_invariant_witness :
    (["dat".data, "a: 7\nda".data, "ta: 8\n".data] : List (List Char)).flatten
        = (["data: 7\ndata: 8\n".data] : List (List Char)).flatten
    ∧ reassemble ["dat".data, "a: 7\nda".data, "ta: 8\n".data]
        = reassemble ["data: 7\ndata: 8\n".data] := by
  exact ⟨by decide, reassemble_split_invariant _ _ (by decide)⟩

/-! ## Streaming pipeline lemmas -/

theorem stepCandidate_fields (st : StreamState) (c : Candidate) :
    (stepCandidate st c).2.id = st.id
    ∧ (stepCandidate st c).2.model = st.model
    ∧ (stepCandidate st c).2.now = st.now
    ∧ (stepCandidate st c).2.streamIncludeUsage = st.streamIncludeUsage
    ∧ (stepCandidate st c).2.emittedId = st.emittedId := by
  cases hf : (finishLookup st.finished (c.index.getD 0)).isSome <;>
    simp [stepCandidate, hf]

theorem stepCandidates_pair (st : StreamState) (c : Candidate) (cs : List Candidate) :
    stepCandidates st (c :: cs)
      = ((stepCandidate st c).1 ++ (stepCandidates (stepCandidate st c).2 cs).1,
         (stepCandidates (stepCandidate st c).2 cs).2) := by
  simp [stepCandidates]

theorem stepCandidates_fields : ∀ (cs : List Candidate) (st : StreamState),
    (stepCandidates st cs).2.id = st.id
    ∧ (stepCandidates st cs).2.model = st.model
    ∧ (stepCandidates st cs).2.now = st.now
    ∧ (stepCandidates st cs).2.streamIncludeUsage = st.streamIncludeUsage
    ∧ (stepCandidates st cs).2.emittedId = st.emittedId := by
  intro cs
  induction cs with
  | nil => intro st; simp [stepCandidates]
  | cons c cs ih =>
    intro st
    obtain ⟨h1, h2, h3, h4, h5⟩ := stepCandidate_fields st c
    obtain ⟨g1, g2, g3, g4, g5⟩ := ih (stepCandidate st c).2
    rw [stepCandidates_pair]
    exact ⟨g1.trans h1, g2.trans h2, g3.trans h3, g4.trans h4, g5.trans h5⟩

theorem toOpenAiStream_fields (st : StreamState) (e : GenerateContentResponse) :
    (toOpenAiStream st e).2.id = st.id
    ∧ (toOpenAiStream st e).2.model = st.model
    ∧ (toOpenAiStream st e).2.now = st.now
    ∧ (toOpenAiStream st e).2.streamIncludeUsage = st.streamIncludeUsage
    ∧ (toOpenAiStream st e).2.emittedId = some (st.emittedId.getD st.id) := by
  obtain ⟨h1, h2, h3, h4, h5⟩ :=
    stepCandidates_fields e.candidates
      { st with emittedId := some (st.emittedId.getD st.id) }
  unfold toOpenAiStream
  cases hu : e.usageMetadata <;>
    cases hds : (stepCandidates
      { st with emittedId := some (st.emittedId.getD st.id) } e.candidates).1.isEmpty <;>
    simp_all

theorem toOpenAiStream_emitted_getD (st : StreamState) (e : GenerateContentResponse) :
    (toOpenAiStream st e).2.emittedId.getD (toOpenAiStream st e).2.id
      = st.emittedId.getD st.id := by
  obtain ⟨h1, _, _, _, h5⟩ := toOpenAiStream_fields st e
  rw [h1, h5]
  rfl

theorem runStreamEvents_fields : ∀ (events : List GenerateContentResponse)
    (st : StreamState),
    (runStreamEvents st events).2.id = st.id
    ∧ (runStreamEvents st events).2.model = st.model
    ∧ (runStreamEvents st events).2.now = st.now
    ∧ (runStreamEvents st events).2.streamIncludeUsage = st.streamIncludeUsage
    ∧ (runStreamEvents st events).2.emittedId.getD (runStreamEvents st events).2.id
        = st.emittedId.getD st.id := by
  intro events
  induction events with
  | nil => intro st; simp [runStreamEvents]
  | cons e es ih =>
    intro st
    obtain ⟨h1, h2, h3, h4, _⟩ := toOpenAiStream_fields st e
    have h5 := toOpenAiStream_emitted_getD st e
    obtain ⟨g1, g2, g3, g4, g5⟩ := ih (toOpenAiStream st e).2
    have hpair : runStreamEvents st (e :: es)
        = ((toOpenAiStream st e).1 ++ (runStreamEvents (toOpenAiStream st e).2 es).1,
           (runStreamEvents (toOpenAiStream st e).2 es).2) := by
      simp [runStreamEvents]
    rw [hpair]
    exact ⟨g1.trans h1, g2.trans h2, g3.trans h3, g4.trans h4, g5.trans h5⟩

theorem toOpenAiStream_frames_id (st : StreamState) (e : GenerateContentResponse) :
    ∀ f ∈ (toOpenAiStream st e).1,
      ∃ c, f = OutFrame.chunk c ∧ c.id = st.emittedId.getD st.id := by
  intro f hf
  obtain ⟨h1, _, _, _, h5⟩ :=
    stepCandidates_fields e.candidates
      { st with emittedId := some (st.emittedId.getD st.id) }
  unfold toOpenAiStream at hf
  cases hu : e.usageMetadata <;>
    cases hds : (stepCandidates
      { st with emittedId := some (st.emittedId.getD st.id) } e.candidates).1.isEmpty <;>
    simp only [hu, hds] at hf <;> simp_all <;>
    exact ⟨_, hf, by simp [h5, h1]⟩

theorem runStreamEvents_frames_id : ∀ (events : List GenerateContentResponse)
    (st : StreamState), ∀ f ∈ (runStreamEvents st events).1,
      ∃ c, f = OutFrame.chunk c ∧ c.id = st.emittedId.getD st.id := by
  intro events
  induction events with
  | nil => intro st f hf; simp [runStreamEvents] at hf
  | cons e es ih =>
    intro st f hf
    have hpair : runStreamEvents st (e :: es)
        = ((toOpenAiStream st e).1 ++ (runStreamEvents (toOpenAiStream st e).2 es).1,
           (runStreamEvents (toOpenAiStream st e).2 es).2) := by
      simp [runStreamEvents]
    rw [hpair] at hf
    rcases List.mem_append.mp hf with h | h
    · exact toOpenAiStream_frames_id st e f h
    · obtain ⟨c, hc, hid⟩ := ih (toOpenAiStream st e).2 f h
      exact ⟨c, hc, hid.trans (toOpenAiStream_emitted_getD st e)⟩

theorem toOpenAiStreamFlush_structure (st : StreamState) :
    ∃ l, toOpenAiStreamFlush st = l ++ [OutFrame.done]
      ∧ ∀ f ∈ l, ∃ c, f = OutFrame.chunk c ∧ c.id = st.emittedId.getD st.id := by
  unfold toOpenAiStreamFlush
  refine ⟨_, rfl, ?_⟩
  intro f hf
  rcases List.mem_append.mp hf with h | h
  · obtain ⟨i, _, hi⟩ := List.mem_map.mp h
    exact ⟨_, hi.symm, rfl⟩
  · revert h
    cases hiu : st.streamIncludeUsage <;> cases hum : transformUsage st.usageMetadata <;>
      simp <;> intro h <;> exact ⟨_, h, rfl⟩

theorem runOpenAiStream_eq (st : StreamState) (events : List GenerateContentResponse) :
    runOpenAiStream st events
      = (runStreamEvents st events).1
          ++ toOpenAiStreamFlush (runStreamEvents st events).2 := by
  simp [runOpenAiStream]

theorem generateChatcmplId_ne_empty (seed : Nat) : generateChatcmplId seed ≠ "" := by
  intro h
  have hd : ("chatcmpl-" ++ toString seed).data = "".data := congrArg String.data h
  rw [String.data_append] at hd
  simp at hd

/-- C5: every frame emitted within one streaming response — the
finalizer's frames included — carries the same non-empty chat-completion
id, the one generated once per response and assigned when the first
event is processed. -/
theorem stream_id_invariant :
    ∀ (seed : Nat) (model : String) (incl : Bool) (now : Nat)
      (events : List GenerateContentResponse) (f : OutFrame) (c : ChunkFrame),
      f ∈ runOpenAiStream (initStreamState (generateChatcmplId seed) model incl now)
            events →
      f = OutFrame.chunk c →
      c.id = generateChatcmplId seed ∧ c.id ≠ "" := by
  intro seed model incl now events f c hf hc
  subst hc
  have hinit : (initStreamState (generateChatcmplId seed) model incl now).emittedId.getD
      (initStreamState (generateChatcmplId seed) model incl now).id
      = generateChatcmplId seed := rfl
  have hid : c.id = generateChatcmplId seed := by
    rw [runOpenAiStream_eq] at hf
    rcases List.mem_append.mp hf with h | h
    · obtain ⟨c', hc', hid⟩ := runStreamEvents_frames_id events _ _ h
      cases hc'
      exact hid.trans hinit
    · obtain ⟨l, hl, hmem⟩ := toOpenAiStreamFlush_structure
        (runStreamEvents (initStreamState (generateChatcmplId seed) model incl now)
          events).2
      rw [hl] at h
      rcases List.mem_append.mp h with h' | h'
      · obtain ⟨c', hc', hid⟩ := hmem _ h'
        cases hc'
        obtain ⟨_, _, _, _, g5⟩ :=
          runStreamEvents_fields events
            (initStreamState (generateChatcmplId seed) model incl now)
        exact hid.trans (g5.trans hinit)
      · simp at h'
  exact ⟨hid, hid ▸ generateChatcmplId_ne_empty seed⟩

/-- Witness for C5: at a one-event stream, the emitted content chunk is
in the output, and its id is the generated one and non-empty. -/
theorem stream_id_invariant_witness :
    (OutFrame.chunk ⟨"chatcmpl-0", "m", 0,
        [⟨0, some "assistant", "Hi", some "stop"⟩], none⟩)
      ∈ runOpenAiStream (initStreamState (generateChatcmplId 0) "m" false 0)
          [⟨[⟨some 0, "Hi", some "STOP"⟩], none⟩]
    ∧ "chatcmpl-0" = generateChatcmplId 0 ∧ "chatcmpl-0" ≠ "" := by
  have h := stream_id_invariant 0 "m" false 0
    [⟨[⟨some 0, "Hi", some "STOP"⟩], none⟩]
    (OutFrame.chunk ⟨"chatcmpl-0", "m", 0,
        [⟨0, some "assistant", "Hi", some "stop"⟩], none⟩)
    ⟨"chatcmpl-0", "m", 0, [⟨0, some "assistant", "Hi", some "stop"⟩], none⟩
    (by decide) rfl
  exact ⟨by decide, h.1.symm.symm, h.2⟩

/-- C6: in every execution path of the streaming pipeline — the upstream
event sequence may stop anywhere, truncation included — the terminal
`[DONE]` sentinel is emitted exactly once and as the last frame; no
frame follows it. -/
theorem stream_sentinel_unique_and_last :
    ∀ (st : StreamState) (events : List GenerateContentResponse),
      (runOpenAiStream st events).count OutFrame.done = 1
      ∧ (runOpenAiStream st events).getLast? = some OutFrame.done := by
  intro st events
  obtain ⟨l, hl, hmem⟩ :=
    toOpenAiStreamFlush_structure (runStreamEvents st events).2
  have hev : ∀ f ∈ (runStreamEvents st events).1, f ≠ OutFrame.done := by
    intro f hf hdone
    obtain ⟨c, hc, _⟩ := runStreamEvents_frames_id events st f hf
    rw [hdone] at hc
    exact OutFrame.noConfusion hc
  have hfl : ∀ f ∈ l, f ≠ OutFrame.done := by
    intro f hf hdone
    obtain ⟨c, hc, _⟩ := hmem f hf
    rw [hdone] at hc
    exact OutFrame.noConfusion hc
  rw [runOpenAiStream_eq, hl, ← List.append_assoc]
  constructor
  · rw [List.count_append]
    have h0 : ((runStreamEvents st events).1 ++ l).count OutFrame.done = 0 := by
      rw [List.count_eq_zero]
      intro hmem'
      rcases List.mem_append.mp hmem' with h | h
      · exact hev _ h rfl
      · exact hfl _ h rfl
    rw [h0]
    rfl
  · rw [List.getLast?_concat]

/-- Well-formedness of the stream bookkeeping: the observed-index list
has no duplicates, and every index with a recorded finish reason has
been observed. -/
def streamStateWF (st : StreamState) : Prop :=
  st.observed.Nodup ∧ ∀ j, hasFinish st j = true → j ∈ st.observed

theorem finishLookup_append_isSome (fs : List (Nat × String)) (j : Nat)
    (r : String) (idx : Nat) :
    (finishLookup (fs ++ [(j, r)]) idx).isSome
      = ((finishLookup fs idx).isSome || idx == j) := by
  induction fs with
  | nil =>
    by_cases h : j = idx <;> simp [finishLookup, h] <;> omega
  | cons p fs ih =>
    by_cases h : p.1 = idx <;> simp [finishLookup, h, ih]

theorem finishDeltaCount_append (a b : List OutFrame) (idx : Nat) :
    finishDeltaCount (a ++ b) idx = finishDeltaCount a idx + finishDeltaCount b idx := by
  unfold finishDeltaCount
  rw [List.map_append, List.sum_append]

theorem deltasFinishCount_append (a b : List Delta) (idx : Nat) :
    deltasFinishCount (a ++ b) idx = deltasFinishCount a idx + deltasFinishCount b idx := by
  unfold deltasFinishCount
  rw [List.filter_append, List.length_append]

theorem stepCandidate_finish_count (st : StreamState) (c : Candidate) (idx : Nat) :
    deltasFinishCount (stepCandidate st c).1 idx
      + (if hasFinish st idx then 1 else 0)
      = (if hasFinish (stepCandidate st c).2 idx then 1 else 0) := by
  unfold stepCandidate
  cases hf : (finishLookup st.finished (c.index.getD 0)).isSome with
  | true => simp [deltasFinishCount, hf]
  | false =>
    by_cases hidx : idx = c.index.getD 0
    · subst hidx
      cases hr : c.finishReason with
      | none => simp [deltasFinishCount, hasFinish, hf, hr]
      | some r =>
        simp [deltasFinishCount, hasFinish, hf, hr, finishLookup_append_isSome]
    · cases hr : c.finishReason with
      | none =>
        simp [deltasFinishCount, hasFinish, hf, hr, Ne.symm hidx]
      | some r =>
        simp [deltasFinishCount, hasFinish, hf, hr, Ne.symm hidx,
          finishLookup_append_isSome, hidx]

theorem stepCandidate_skip (st : StreamState) (c : Candidate)
    (hf : (finishLookup st.finished (c.index.getD 0)).isSome = true) :
    stepCandidate st c = ([], st) := by
  simp [stepCandidate, hf]

theorem stepCandidate_state (st : StreamState) (c : Candidate)
    (hf : (finishLookup st.finished (c.index.getD 0)).isSome = false) :
    (stepCandidate st c).2 = { st with
      observed := if c.index.getD 0 ∈ st.observed then st.observed
                  else st.observed ++ [c.index.getD 0]
      finished := match c.finishReason with
        | none => st.finished
        | some r => st.finished ++ [(c.index.getD 0, mapFinishReason r)] } := by
  simp [stepCandidate, hf]

theorem stepCandidate_observed (st : StreamState) (c : Candidate)
    (hwf : streamStateWF st) :
    (∀ idx, idx ∈ (stepCandidate st c).2.observed
      ↔ idx ∈ st.observed ∨ idx = c.index.getD 0)
    ∧ streamStateWF (stepCandidate st c).2 := by
  cases hf : (finishLookup st.finished (c.index.getD 0)).isSome with
  | true =>
    have hmem : c.index.getD 0 ∈ st.observed := hwf.2 _ (by simp [hasFinish, hf])
    rw [stepCandidate_skip st c hf]
    refine ⟨fun idx => ⟨fun h => Or.inl h, ?_⟩, hwf⟩
    rintro (h | h)
    · exact h
    · rw [h]; exact hmem
  | false =>
    rw [stepCandidate_state st c hf]
    by_cases hobs : c.index.getD 0 ∈ st.observed
    · refine ⟨fun idx => ?_, ?_, ?_⟩
      · simp only [hobs, if_true]
        refine ⟨fun h => Or.inl h, ?_⟩
        rintro (h | h)
        · exact h
        · rw [h]; exact hobs
      · simpa [hobs] using hwf.1
      · intro j hj
        cases hr : c.finishReason with
        | none =>
          simp only [hobs, if_true]
          simp [hasFinish, hr] at hj
          exact hwf.2 j (by simpa [hasFinish] using hj)
        | some r =>
          simp only [hobs, if_true]
          simp only [hasFinish, hr, finishLookup_append_isSome] at hj
          rcases Bool.or_eq_true_iff.mp hj with hj | hj
          · exact hwf.2 j (by simpa [hasFinish] using hj)
          · exact (eq_of_beq hj) ▸ hobs
    · refine ⟨fun idx => ?_, ?_, ?_⟩
      · simp [hobs, List.mem_append]
      · simp only [hobs, if_false]
        simp [List.nodup_append, hwf.1, hobs]
      · intro j hj
        cases hr : c.finishReason with
        | none =>
          simp only [hobs, if_false]
          simp [hasFinish, hr] at hj
          exact List.mem_append.mpr (Or.inl (hwf.2 j (by simpa [hasFinish] using hj)))
        | some r =>
          simp only [hobs, if_false]
          simp only [hasFinish, hr, finishLookup_append_isSome] at hj
          rcases Bool.or_eq_true_iff.mp hj with hj | hj
          · exact List.mem_append.mpr
              (Or.inl (hwf.2 j (by simpa [hasFinish] using hj)))
          · exact List.mem_append.mpr (Or.inr (by simpa using eq_of_beq hj))

theorem stepCandidates_invariant : ∀ (cs : List Candidate) (st : StreamState),
    streamStateWF st →
    (∀ idx, deltasFinishCount (stepCandidates st cs).1 idx
        + (if hasFinish st idx then 1 else 0)
        = (if hasFinish (stepCandidates st cs).2 idx then 1 else 0))
    ∧ (∀ idx, idx ∈ (stepCandidates st cs).2.observed
        ↔ idx ∈ st.observed ∨ ∃ c ∈ cs, c.index.getD 0 = idx)
    ∧ streamStateWF (stepCandidates st cs).2 := by
  intro cs
  induction cs with
  | nil =>
    intro st hwf
    refine ⟨fun idx => by simp [stepCandidates, deltasFinishCount],
      fun idx => by simp [stepCandidates], by simpa [stepCandidates] using hwf⟩
  | cons c cs ih =>
    intro st hwf
    obtain ⟨hobs1, hwf1⟩ := stepCandidate_observed st c hwf
    obtain ⟨ihc, ihobs, ihwf⟩ := ih (stepCandidate st c).2 hwf1
    rw [stepCandidates_pair]
    refine ⟨fun idx => ?_, fun idx => ?_, ihwf⟩
    · have h1 := stepCandidate_finish_count st c idx
      have h2 := ihc idx
      rw [deltasFinishCount_append]
      dsimp only
      omega
    · rw [ihobs idx, hobs1 idx]
      constructor
      · rintro ((h | h) | h)
        · exact Or.inl h
        · exact Or.inr ⟨c, List.mem_cons_self c cs, h.symm⟩
        · obtain ⟨c', hc', hidx⟩ := h
          exact Or.inr ⟨c', List.mem_cons_of_mem c hc', hidx⟩
      · rintro (h | ⟨c', hc', hidx⟩)
        · exact Or.inl (Or.inl h)
        · rcases List.mem_cons.mp hc' with h | h
          · exact Or.inl (Or.inr (h ▸ hidx.symm))
          · exact Or.inr ⟨c', h, hidx⟩

theorem toOpenAiStream_invariant (st : StreamState) (e : GenerateContentResponse)
    (hwf : streamStateWF st) :
    (∀ idx, finishDeltaCount (toOpenAiStream st e).1 idx
        + (if hasFinish st idx then 1 else 0)
        = (if hasFinish (toOpenAiStream st e).2 idx then 1 else 0))
    ∧ (∀ idx, idx ∈ (toOpenAiStream st e).2.observed
        ↔ idx ∈ st.observed ∨ ∃ c ∈ e.candidates, c.index.getD 0 = idx)
    ∧ streamStateWF (toOpenAiStream st e).2 := by
  have hwf0 : streamStateWF { st with emittedId := some (st.emittedId.getD st.id) } := by
    exact ⟨hwf.1, hwf.2⟩
  obtain ⟨hc, hobs, hwfs⟩ :=
    stepCandidates_invariant e.candidates
      { st with emittedId := some (st.emittedId.getD st.id) } hwf0
  unfold toOpenAiStream
  cases hu : e.usageMetadata <;>
    cases hds : (stepCandidates
      { st with emittedId := some (st.emittedId.getD st.id) } e.candidates).1.isEmpty <;>
    simp only [hu, hds] <;>
    refine ⟨fun idx => ?_, fun idx => ?_, ?_⟩ <;>
    first
      | (have h := hc idx
         have hdse := List.isEmpty_iff.mp hds
         simp only [hasFinish] at h ⊢
         simp [finishDeltaCount, deltasFinishCount, hdse] at h ⊢
         omega)
      | (have h := hc idx
         simp only [hasFinish] at h ⊢
         simp only [finishDeltaCount, List.map_cons, List.map_nil, List.sum_cons,
           List.sum_nil] at h ⊢
         simp [deltasFinishCount] at h ⊢
         omega)
      | (simpa using hobs idx)
      | (exact ⟨hwfs.1, hwfs.2⟩)

theorem runStreamEvents_invariant : ∀ (events : List GenerateContentResponse)
    (st : StreamState), streamStateWF st →
    (∀ idx, finishDeltaCount (runStreamEvents st events).1 idx
        + (if hasFinish st idx then 1 else 0)
        = (if hasFinish (runStreamEvents st events).2 idx then 1 else 0))
    ∧ (∀ idx, idx ∈ (runStreamEvents st events).2.observed
        ↔ idx ∈ st.observed ∨ observedIn events idx)
    ∧ streamStateWF (runStreamEvents st events).2 := by
  intro events
  induction events with
  | nil =>
    intro st hwf
    refine ⟨fun idx => by simp [runStreamEvents, finishDeltaCount],
      fun idx => by simp [runStreamEvents, observedIn], by
        simpa [runStreamEvents] using hwf⟩
  | cons e es ih =>
    intro st hwf
    obtain ⟨hc1, hobs1, hwf1⟩ := toOpenAiStream_invariant st e hwf
    obtain ⟨hc2, hobs2, hwf2⟩ := ih (toOpenAiStream st e).2 hwf1
    have hpair : runStreamEvents st (e :: es)
        = ((toOpenAiStream st e).1 ++ (runStreamEvents (toOpenAiStream st e).2 es).1,
           (runStreamEvents (toOpenAiStream st e).2 es).2) := by
      simp [runStreamEvents]
    rw [hpair]
    refine ⟨fun idx => ?_, fun idx => ?_, hwf2⟩
    · have h1 := hc1 idx
      have h2 := hc2 idx
      rw [finishDeltaCount_append]
      dsimp only
      omega
    · dsimp only
      rw [hobs2 idx, hobs1 idx]
      unfold observedIn
      constructor
      · rintro ((h | h) | h)
        · exact Or.inl h
        · obtain ⟨c, hc, hidx⟩ := h
          exact Or.inr ⟨e, List.mem_cons_self e es, c, hc, hidx⟩
        · obtain ⟨e', he', c, hc, hidx⟩ := h
          exact Or.inr ⟨e', List.mem_cons_of_mem e he', c, hc, hidx⟩
      · rintro (h | ⟨e', he', c, hc, hidx⟩)
        · exact Or.inl (Or.inl h)
        · rcases List.mem_cons.mp he' with h | h
          · exact Or.inl (Or.inr ⟨c, h ▸ hc, hidx⟩)
          · exact Or.inr ⟨e', h, c, hc, hidx⟩

theorem closeFrames_finish_count (theId model : String) (now : Nat) (idx : Nat) :
    ∀ (l : List Nat), l.Nodup →
      finishDeltaCount (l.map (fun i => OutFrame.chunk
        ⟨theId, model, now, [⟨i, none, "", some fallbackFinishReason⟩], none⟩)) idx
        = if idx ∈ l then 1 else 0 := by
  intro l
  induction l with
  | nil => intro _; simp [finishDeltaCount]
  | cons j l ih =>
    intro hnd
    have hl := ih (List.Nodup.of_cons hnd)
    simp only [List.map_cons]
    have hstep : finishDeltaCount (OutFrame.chunk
        ⟨theId, model, now, [⟨j, none, "", some fallbackFinishReason⟩], none⟩
          :: l.map (fun i => OutFrame.chunk
            ⟨theId, model, now, [⟨i, none, "", some fallbackFinishReason⟩], none⟩)) idx
        = deltasFinishCount [⟨j, none, "", some fallbackFinishReason⟩] idx
          + finishDeltaCount (l.map (fun i => OutFrame.chunk
            ⟨theId, model, now, [⟨i, none, "", some fallbackFinishReason⟩], none⟩)) idx := by
      simp [finishDeltaCount, deltasFinishCount]
    rw [hstep, hl]
    by_cases hj : idx = j
    · subst hj
      have hnot : idx ∉ l := (List.nodup_cons.mp hnd).1
      simp [deltasFinishCount, hnot]
    · simp [deltasFinishCount, Ne.symm hj, hj]

theorem toOpenAiStreamFlush_finish_count (st : StreamState)
    (hwf : streamStateWF st) (idx : Nat) :
    finishDeltaCount (toOpenAiStreamFlush st) idx
      = if idx ∈ st.observed ∧ hasFinish st idx = false then 1 else 0 := by
  unfold toOpenAiStreamFlush
  rw [finishDeltaCount_append, finishDeltaCount_append]
  have husage : finishDeltaCount
      (match st.streamIncludeUsage, transformUsage st.usageMetadata with
        | true, some u => [OutFrame.chunk ⟨st.emittedId.getD st.id, st.model, st.now,
            [], some u⟩]
        | _, _ => []) idx = 0 := by
    cases st.streamIncludeUsage <;> cases transformUsage st.usageMetadata <;>
      simp [finishDeltaCount, deltasFinishCount]
  have hdone : finishDeltaCount [OutFrame.done] idx = 0 := by
    simp [finishDeltaCount]
  rw [husage, hdone, closeFrames_finish_count _ _ _ _ _
    (List.Nodup.filter _ hwf.1)]
  have hmem : idx ∈ st.observed.filter (fun i => (finishLookup st.finished i).isNone)
      ↔ idx ∈ st.observed ∧ hasFinish st idx = false := by
    rw [List.mem_filter]
    unfold hasFinish
    constructor
    · rintro ⟨h1, h2⟩
      exact ⟨h1, by cases hx : finishLookup st.finished idx <;> simp_all⟩
    · rintro ⟨h1, h2⟩
      exact ⟨h1, by cases hx : finishLookup st.finished idx <;> simp_all⟩
  by_cases h : idx ∈ st.observed ∧ hasFinish st idx = false
  · rw [if_pos (hmem.mpr h), if_pos h]
  · rw [if_neg (fun hx => h (hmem.mp hx)), if_neg h]

/-- C7: for every candidate index that appears in any upstream event of
a streaming response, exactly one delta carrying a finish reason for
that index has been emitted by the time the Stream Finalizer completes —
from upstream data when an event supplied a finish reason, or
synthesized with the fallback reason when the stream ended without one. -/
theorem stream_finish_coverage :
    ∀ (id model : String) (incl : Bool) (now : Nat)
      (events : List GenerateContentResponse) (idx : Nat),
      observedIn events idx →
      finishDeltaCount
        (runOpenAiStream (initStreamState id model incl now) events) idx = 1 := by
  intro id model incl now events idx hobs
  have hwf0 : streamStateWF (initStreamState id model incl now) :=
    ⟨List.nodup_nil, fun j hj => by
      simp [initStreamState, hasFinish, finishLookup] at hj⟩
  obtain ⟨hcount, hobsiff, hwf⟩ := runStreamEvents_invariant events _ hwf0
  rw [runOpenAiStream_eq, finishDeltaCount_append]
  have h1 := hcount idx
  have hmem : idx ∈ (runStreamEvents (initStreamState id model incl now) events).2.observed :=
    (hobsiff idx).mpr (Or.inr hobs)
  rw [toOpenAiStreamFlush_finish_count _ hwf idx]
  have hinit : hasFinish (initStreamState id model incl now) idx = false := by
    simp [initStreamState, hasFinish, finishLookup]
  rw [hinit] at h1
  rcases Bool.eq_false_or_eq_true
      (hasFinish (runStreamEvents (initStreamState id model incl now) events).2 idx)
    with hfin | hfin
  · rw [hfin] at h1
    rw [if_neg (fun hx => Bool.false_ne_true (hx.2.symm.trans hfin))]
    simp at h1
    omega
  · rw [hfin] at h1
    rw [if_pos ⟨hmem, hfin⟩]
    simp at h1
    omega

/-- Witness for C7: a stream that ends after one unfinished event — the
finalizer synthesizes the single closing delta for index 0. -/
theorem stream_finish_coverage_witness :
    observedIn [⟨[⟨some 0, "Hi", none⟩], none⟩] 0
    ∧ finishDeltaCount
        (runOpenAiStream (initStreamState "chatcmpl-7" "m" false 0)
          [⟨[⟨some 0, "Hi", none⟩], none⟩]) 0 = 1 := by
  refine ⟨⟨⟨[⟨some 0, "Hi", none⟩], none⟩, by simp, ⟨some 0, "Hi", none⟩, by simp, rfl⟩, ?_⟩
  exact stream_finish_coverage "chatcmpl-7" "m" false 0
    [⟨[⟨some 0, "Hi", none⟩], none⟩] 0
    ⟨⟨[⟨some 0, "Hi", none⟩], none⟩, by simp, ⟨some 0, "Hi", none⟩, by simp, rfl⟩

/-- C3: the spec claims the per-candidate accumulated content of the
streaming path equals the content the Non-Streaming Response Transformer
produces for the same logical result.  The code breaks this: on an
upstream pair of events whose concatenated content for candidate 0 is
`"Hello"` — matching a complete body whose candidate 0 content is
`"Hello"` — the streaming path accumulates `"Hello"`, while the
non-streaming transformer emits the serialized inbound request
(here `"\x7b\x7d"`) as the message content. -/
theorem streaming_vs_nonstreaming_content :
    accumContent
      (runOpenAiStream (initStreamState "chatcmpl-5" "m" false 0)
        [⟨[⟨some 0, "Hel", none⟩], none⟩, ⟨[⟨some 0, "lo", some "STOP"⟩], none⟩]) 0
      = "Hello"
    ∧ ((processCompletionsResponse ⟨[⟨some 0, "Hello", some "STOP"⟩], none⟩
          "m" "chatcmpl-5" (.obj []) 0).choices.map (·.message_content)) = ["\x7b\x7d"]
    ∧ ("Hello" : String) ≠ "\x7b\x7d" := by
  refine ⟨by decide, by decide, by decide⟩
